import Mathlib

/-!
Verification of the knowledge-db core logic: the boundary-aware document
chunker, the lexical+semantic hybrid-fusion algorithm, the vector-store
wrapper (initialize / search), and the named-vector algebra.

Strings are modelled as `List Char`, JavaScript numbers used as array
indices and sizes as `Int`/`Nat`, JavaScript float scores and weights as
`ℚ`, and embedding components (which flow through square roots during
normalization) as `ℝ`.
-/

namespace KnowledgeDb

/-! ## Chunker (src/vector/hnswlib.ts, `chunkDocument`) -/

/-- JavaScript `String.prototype.substring`: both arguments are clamped to
`[0, length]` and swapped when out of order. -/
def jsSubstring (s : List Char) (a b : Int) : List Char :=
  let len : Int := s.length
  let a' : Nat := (min (max a 0) len).toNat
  let b' : Nat := (min (max b 0) len).toNat
  (s.drop (min a' b')).take (max a' b' - min a' b')

/-- Whitespace characters removed by JavaScript `String.prototype.trim`
(the ones that occur in this code base's data). -/
def isJsWhitespace (c : Char) : Bool :=
  c = ' ' || c = '\n' || c = '\t' || c = '\r'

/-- JavaScript `String.prototype.trim`. -/
def jsTrim (s : List Char) : List Char :=
  ((s.dropWhile isJsWhitespace).reverse.dropWhile isJsWhitespace).reverse

/-- Indices at which the two-character pattern `p0 p1` occurs in `s`. -/
def matchPositions (s : List Char) (p0 p1 : Char) : List Nat :=
  (List.range s.length).filter
    (fun i => s.get? i = some p0 ∧ s.get? (i + 1) = some p1)

/-- JavaScript `String.prototype.lastIndexOf` for a two-character pattern:
the largest starting index of an occurrence, or `-1` when absent. -/
def lastIndexOf2 (s : List Char) (p0 p1 : Char) : Int :=
  match (matchPositions s p0 p1).getLast? with
  | some i => (i : Int)
  | none => -1

/-- The candidate window extracted at `position`: `chunkSize` characters
from `position`, extended backwards by `overlap` characters when
`position > 0` and `overlap > 0` (lines 407-413 of the source). -/
def chunkWindow (content : List Char) (chunkSize overlap : Nat) (position : Int) :
    List Char :=
  if 0 < position ∧ 0 < overlap then
    jsSubstring content (max 0 (position - overlap)) (position + chunkSize)
  else
    jsSubstring content position (position + chunkSize)

/-- Boundary adjustment of a candidate chunk (lines 416-433 of the source):
truncate at the last paragraph break past half of `chunkSize`, else just
after the last sentence break past half of `chunkSize`, else keep the
candidate.  `paragraphBreak > chunkSize * 0.5` is rendered exactly as
`2 * paragraphBreak > chunkSize` over `Int`. -/
def chunkAdjust (chunkSize : Nat) (chunk : List Char) : List Char :=
  let paragraphBreak := lastIndexOf2 chunk '\n' '\n'
  if 2 * paragraphBreak > (chunkSize : Int) then
    chunk.take paragraphBreak.toNat
  else
    let sentenceBreak :=
      max (max (lastIndexOf2 chunk '.' ' ') (lastIndexOf2 chunk '.' '\n'))
        (max (lastIndexOf2 chunk '!' ' ') (lastIndexOf2 chunk '?' ' '))
    if 2 * sentenceBreak > (chunkSize : Int) then
      chunk.take (sentenceBreak.toNat + 1)
    else
      chunk

/-- One iteration of the `chunkDocument` loop body (lines 405-442 of the
source): returns the chunk that is pushed (trimmed) and the new value of
`position`. -/
def chunkStep (content : List Char) (chunkSize overlap : Nat) (position : Int) :
    List Char × Int :=
  let len : Int := content.length
  let window := chunkWindow content chunkSize overlap position
  let chunk :=
    if position + chunkSize < len then chunkAdjust chunkSize window else window
  let position1 := position + chunk.length
  let position2 :=
    if position1 < len ∧ 0 < overlap then position1 - overlap else position1
  (jsTrim chunk, position2)

/-- The `while (position < content.length)` loop of `chunkDocument`,
with explicit fuel; `none` means the fuel was exhausted before the loop
condition became false. -/
def chunkLoop (content : List Char) (chunkSize overlap : Nat) :
    Nat → Int → Option (List (List Char))
  | 0, _ => none
  | fuel + 1, position =>
    if position < (content.length : Int) then
      let s := chunkStep content chunkSize overlap position
      (chunkLoop content chunkSize overlap fuel s.2).map (s.1 :: ·)
    else
      some []

/-- `chunkDocument(content, chunkSize, overlap)` (lines 392-445 of the
source), with explicit fuel for the loop.  Content no longer than
`chunkSize` is returned as a single chunk unchanged; otherwise the loop
runs and empty chunks are dropped from the result. -/
def chunkDocument (content : List Char) (chunkSize overlap : Nat) (fuel : Nat) :
    Option (List (List Char)) :=
  if content.length ≤ chunkSize then
    some [content]
  else
    (chunkLoop content chunkSize overlap fuel 0).map
      (List.filter (fun c => !c.isEmpty))

/-- Concrete content used to exercise the chunker: a paragraph break at
index 6 and total length 19. -/
def exContent : List Char := "abcdef\n\nxyzjunkmore".toList

/-! ## Hybrid fusion (src/index.ts, `hybridSearch` merge, lines 437-456)

Document identifiers are `Nat` (`0` plays the role of a falsy JavaScript
id, which both folds skip), scores are `ℚ`.  The JavaScript `Map` is an
association list in insertion order: `Map.set` on a present key updates
the entry in place, otherwise appends. -/

/-- `Map.get`: first value stored under `k`, if any. -/
def mapGet (m : List (Nat × ℚ)) (k : Nat) : Option ℚ :=
  match m with
  | [] => none
  | (k', v) :: rest => if k' = k then some v else mapGet rest k

/-- `Map.set`: update in place when the key is present (JavaScript `Map`
keeps the original insertion position), append otherwise. -/
def mapSet (m : List (Nat × ℚ)) (k : Nat) (v : ℚ) : List (Nat × ℚ) :=
  match m with
  | [] => [(k, v)]
  | (k', v') :: rest =>
    if k' = k then (k, v) :: rest else (k', v') :: mapSet rest k v

/-- Folding one lexical hit into the merge map:
`if (doc.id) merged.set(doc.id, { doc, score: 0.5 })`. -/
def lexStep (m : List (Nat × ℚ)) (id : Nat) : List (Nat × ℚ) :=
  if id ≠ 0 then mapSet m id (1/2) else m

/-- Folding one semantic hit `(id, similarity)` into the merge map:
skip falsy ids, add `similarity * 0.5` to an existing entry, otherwise
insert with score `similarity * 0.5`. -/
def semStep (m : List (Nat × ℚ)) (hit : Nat × ℚ) : List (Nat × ℚ) :=
  if hit.1 = 0 then m
  else
    match mapGet m hit.1 with
    | some v => mapSet m hit.1 (v + hit.2 * (1/2))
    | none => mapSet m hit.1 (hit.2 * (1/2))

/-- The merge map after folding in all lexical hits, then all semantic
hits (lines 437-451 of src/index.ts). -/
def fuseMerged (lexical : List Nat) (semantic : List (Nat × ℚ)) :
    List (Nat × ℚ) :=
  semantic.foldl semStep (lexical.foldl lexStep [])

/-- Comparator of `.sort((a, b) => b.score - a.score)`: descending by
score. -/
def scoreDesc (a b : Nat × ℚ) : Prop := b.2 ≤ a.2

instance : DecidableRel scoreDesc :=
  fun a b => inferInstanceAs (Decidable (b.2 ≤ a.2))

instance : IsTotal (Nat × ℚ) scoreDesc := ⟨fun a b => le_total b.2 a.2⟩

instance : IsTrans (Nat × ℚ) scoreDesc := ⟨fun _ _ _ h h' => le_trans h' h⟩

/-- The merged entries sorted descending by score; `List.insertionSort`
is stable, matching the stable JavaScript `Array.prototype.sort`. -/
def fuseSorted (lexical : List Nat) (semantic : List (Nat × ℚ)) :
    List (Nat × ℚ) :=
  (fuseMerged lexical semantic).insertionSort scoreDesc

/-- The full fusion of `hybridSearch`: merge, stable descending sort,
truncation to `limit` (lines 453-456 of src/index.ts). -/
def fuse (lexical : List Nat) (semantic : List (Nat × ℚ)) (limit : Nat) :
    List (Nat × ℚ) :=
  (fuseSorted lexical semantic).take limit

/-! ## Vector store wrapper (src/vector/hnswlib.ts, `VectorStore`)

Stored vectors are rational (JavaScript floats are rationals); the
internal hnswlib index is modelled by its entry list in insertion order
together with the distance function it was configured with. -/

/-- Error kinds surfaced by the vector-store wrapper. -/
inductive VSErr where
  | notInitialized
  | dimensionMismatch
  | indexPersistenceError
  deriving DecidableEq, Repr

/-- State of a `VectorStore` instance. -/
structure VSState where
  initialized : Bool
  dimension : Nat
  maxElements : Nat
  numElements : Nat
  elems : List (Nat × List ℚ)
  deriving DecidableEq, Repr

/-- A `VectorStore` as built by the constructor (before `initialize`). -/
def vsNew (dimension : Nat) : VSState :=
  { initialized := false, dimension := dimension, maxElements := 100000,
    numElements := 0, elems := [] }

/-- What `initialize` finds at the configured index path. -/
inductive DiskState where
  | absent
  | corrupt
  | stored (elems : List (Nat × List ℚ))
  deriving DecidableEq, Repr

/-- `VectorStore.initialize(maxElements)` (lines 21-51 of the source).
An absent file and a corrupt file both lead to `initIndex(maxElements)`
(the corrupt case is caught at lines 37-40 and only warned about); a
readable file is loaded and `numElements` set from `getCurrentCount()`.
File-system failures outside the load path (`mkdirSync`) are not
modelled. -/
def vsInitialize (st : VSState) (disk : DiskState) (capacity : Nat) :
    Except VSErr VSState :=
  match disk with
  | .absent =>
    .ok { st with initialized := true, maxElements := capacity, elems := [] }
  | .corrupt =>
    .ok { st with initialized := true, maxElements := capacity, elems := [] }
  | .stored elems =>
    .ok { st with initialized := true, maxElements := capacity,
                  elems := elems, numElements := elems.length }

/-- Ascending order on stored entries by distance to a query. -/
def distAsc (dist : List ℚ → List ℚ → ℚ) (q : List ℚ)
    (p₁ p₂ : Nat × List ℚ) : Prop :=
  dist q p₁.2 ≤ dist q p₂.2

instance (dist : List ℚ → List ℚ → ℚ) (q : List ℚ) :
    DecidableRel (distAsc dist q) :=
  fun p₁ p₂ => inferInstanceAs (Decidable (dist q p₁.2 ≤ dist q p₂.2))

instance (dist : List ℚ → List ℚ → ℚ) (q : List ℚ) :
    IsTotal (Nat × List ℚ) (distAsc dist q) :=
  ⟨fun p₁ p₂ => le_total (dist q p₁.2) (dist q p₂.2)⟩

instance (dist : List ℚ → List ℚ → ℚ) (q : List ℚ) :
    IsTrans (Nat × List ℚ) (distAsc dist q) :=
  ⟨fun _ _ _ h h' => le_trans h h'⟩

/-- `searchKnn` of the underlying index.  Modelled from the spec: the
hnswlib-node library itself is external to the repository; per spec §4.1
it returns the `k` entries closest to the query ordered ascending by
distance, ties broken by insertion order (stable sort). -/
def searchKnn (elems : List (Nat × List ℚ)) (dist : List ℚ → List ℚ → ℚ)
    (q : List ℚ) (k : Nat) : List (Nat × ℚ) :=
  ((elems.insertionSort (distAsc dist q)).take k).map
    (fun p => (p.1, dist q p.2))

/-- `VectorStore.search(vector, k)` (lines 72-98 of the source):
initialization check, dimension check, empty-index short-circuit, then
`searchKnn` with `actualK = Math.min(k, numElements)`. -/
def vsSearch (st : VSState) (dist : List ℚ → List ℚ → ℚ) (q : List ℚ)
    (k : Nat) : Except VSErr (List (Nat × ℚ)) :=
  if st.initialized = false then .error .notInitialized
  else if q.length ≠ st.dimension then .error .dimensionMismatch
  else if st.numElements = 0 then .ok []
  else .ok (searchKnn st.elems dist q (min k st.numElements))

/-! ## Vector math and named-vector algebra
(src/vector/hnswlib.ts statics, src/index.ts `vectorAlgebra`)

Embedding components are `ℝ` because normalization divides by a Euclidean
magnitude; weights stay `ℚ` so that the JavaScript truthiness test
`op.weight || 1.0` remains decidable. -/

/-- Sum of squared components. -/
def sumSq (v : List ℝ) : ℝ := (v.map (fun x => x * x)).sum

/-- `VectorStore.magnitude` (and the magnitude computed inside
`normalize`, lines 157-158). -/
noncomputable def magnitude (v : List ℝ) : ℝ := Real.sqrt (sumSq v)

/-- `VectorStore.normalize` (lines 157-169): divide componentwise by the
magnitude, returning the vector unchanged when the magnitude is zero. -/
noncomputable def normalize (v : List ℝ) : List ℝ :=
  letI : Decidable (magnitude v = 0) := Classical.dec _
  if magnitude v = 0 then v else v.map (fun x => x / magnitude v)

/-- `VectorStore.add(v1, v2, weight)` (lines 125-135): guarded by the
dimension check, then normalized weighted sum. -/
noncomputable def vAdd (v₁ v₂ : List ℝ) (weight : ℚ) : Option (List ℝ) :=
  if v₁.length = v₂.length then
    some (normalize (List.zipWith (fun a b => a + (weight : ℝ) * b) v₁ v₂))
  else none

/-- `VectorStore.subtract(v1, v2, weight)` (lines 137-147). -/
noncomputable def vSub (v₁ v₂ : List ℝ) (weight : ℚ) : Option (List ℝ) :=
  if v₁.length = v₂.length then
    some (normalize (List.zipWith (fun a b => a - (weight : ℝ) * b) v₁ v₂))
  else none

/-- Operation kinds of `VectorOperation.type` (src/types.ts). -/
inductive OpType where
  | add
  | subtract
  | multiply
  deriving DecidableEq, Repr

/-- A `VectorOperation` (src/types.ts): kind, handle, optional weight. -/
structure VOp where
  type : OpType
  handle : String
  weight : Option ℚ
  deriving DecidableEq

/-- Failure modes of `vectorAlgebra`. -/
inductive VAErr where
  | handleNotFound (handle : String)
  | dimensionMismatch
  deriving DecidableEq, Repr

/-- The named-vector table (`named_vectors`, unique handles), as an
association list. -/
def lookupHandle (db : List (String × List ℝ)) (h : String) : Option (List ℝ) :=
  (db.find? (fun p => p.1 == h)).map (·.2)

/-- `op.weight || 1.0`: an absent weight and a weight of `0` (both falsy)
become `1.0`. -/
def effWeight (w : Option ℚ) : ℚ :=
  match w with
  | none => 1
  | some x => if x = 0 then 1 else x

/-- The loop of `vectorAlgebra` (src/index.ts lines 386-405): `acc` is
the mutable `result`, `none` until the first resolved operation seeds it.
The `switch` has no `multiply` case, so a `multiply` operation leaves the
accumulator unchanged. -/
noncomputable def vaLoop (db : List (String × List ℝ)) :
    Option (List ℝ) → List VOp → Except VAErr (Option (List ℝ))
  | acc, [] => .ok acc
  | acc, op :: rest =>
    match lookupHandle db op.handle with
    | none => .error (.handleNotFound op.handle)
    | some v =>
      match acc with
      | none => vaLoop db (some v) rest
      | some r =>
        match op.type with
        | .add =>
          match vAdd r v (effWeight op.weight) with
          | some r' => vaLoop db (some r') rest
          | none => .error .dimensionMismatch
        | .subtract =>
          match vSub r v (effWeight op.weight) with
          | some r' => vaLoop db (some r') rest
          | none => .error .dimensionMismatch
        | .multiply => vaLoop db (some r) rest

/-- `KnowledgeBase.vectorAlgebra(operations)` (src/index.ts lines
384-411).  The function is declared to return a vector but executes
`return result!`; on an empty operation list `result` is still `null`,
modelled by `Except.ok none`. -/
noncomputable def vectorAlgebra (db : List (String × List ℝ))
    (operations : List VOp) : Except VAErr (Option (List ℝ)) :=
  vaLoop db none operations

/-- The part of an operation that `vaLoop` actually consumes once the
accumulator is seeded: handle, kind, and effective weight. -/
def vopKey (op : VOp) : String × OpType × ℚ :=
  (op.handle, op.type, effWeight op.weight)

/-- Named-vector table used in the concrete examples:
`h1 = [1,0,0]`, `h2 = [0,1,0]`. -/
noncomputable def exDb : List (String × List ℝ) :=
  [("h1", [1, 0, 0]), ("h2", [0, 1, 0])]

/-- The operation list of the spec's worked example:
`[{h1, add}, {h2, subtract, weight: 0.5}]`. -/
def exOps : List VOp :=
  [⟨.add, "h1", none⟩, ⟨.subtract, "h2", some (1/2)⟩]

/-- A concrete initialized store with two 2-dimensional entries. -/
def exStore : VSState :=
  { initialized := true, dimension := 2, maxElements := 10,
    numElements := 2, elems := [(5, [1, 0]), (7, [0, 1])] }

/-- A concrete distance function for exercising `vsSearch`. -/
def exDist : List ℚ → List ℚ → ℚ := fun _ _ => 0

end KnowledgeDb

namespace KnowledgeDb

/-! ## Chunker length and progress lemmas (C1) -/

theorem jsSubstring_length (s : List Char) (a b : Int) (ha : 0 ≤ a)
    (hab : a ≤ b) :
    ((jsSubstring s a b).length : Int) =
      min b s.length - min a s.length := by
  simp only [jsSubstring, List.length_take, List.length_drop]
  omega

/-- When the window end lies strictly inside the content, the candidate
window holds at least `chunkSize` characters. -/
theorem chunkWindow_length_lb (content : List Char) (c o : Nat) (pos : Int)
    (hpos : 0 ≤ pos) (hlt : pos + c < (content.length : Int)) :
    (c : Int) ≤ (chunkWindow content c o pos).length := by
  unfold chunkWindow
  split_ifs with h
  · rw [jsSubstring_length content (max 0 (pos - o)) (pos + c)
      (le_max_left _ _) (by omega)]
    omega
  · rw [jsSubstring_length content pos (pos + c) hpos (by omega)]
    omega

/-- When the window end reaches the end of the content, the candidate
window covers everything from `position` on. -/
theorem chunkWindow_length_tail (content : List Char) (c o : Nat) (pos : Int)
    (hpos : 0 ≤ pos) (hlt : pos < (content.length : Int))
    (hge : (content.length : Int) ≤ pos + c) :
    (content.length : Int) - pos ≤ (chunkWindow content c o pos).length := by
  unfold chunkWindow
  split_ifs with h
  · rw [jsSubstring_length content (max 0 (pos - o)) (pos + c)
      (le_max_left _ _) (by omega)]
    omega
  · rw [jsSubstring_length content pos (pos + c) hpos (by omega)]
    omega

/-- Boundary adjustment keeps at least `⌊chunkSize/2⌋ + 1` characters of a
candidate that holds at least `chunkSize` characters. -/
theorem chunkAdjust_length_lb (c : Nat) (hc : 1 ≤ c) (chunk : List Char)
    (hlen : c ≤ chunk.length) :
    c / 2 + 1 ≤ (chunkAdjust c chunk).length := by
  simp only [chunkAdjust]
  split_ifs with h1 h2
  · simp only [List.length_take]
    omega
  · simp only [List.length_take]
    omega
  · omega

/-- One loop iteration from a nonnegative in-range position either
advances by at least `⌊chunkSize/2⌋ + 1 − overlap` or jumps past the end;
in both cases the new position is strictly larger, provided
`2·overlap ≤ chunkSize`. -/
theorem chunkStep_progress (content : List Char) (c o : Nat) (pos : Int)
    (hc : 1 ≤ c) (ho : 2 * o ≤ c) (hpos : 0 ≤ pos)
    (hlt : pos < (content.length : Int)) :
    (pos + ((c / 2 + 1 - o : Nat) : Int) ≤ (chunkStep content c o pos).2 ∨
      (content.length : Int) ≤ (chunkStep content c o pos).2) ∧
    pos < (chunkStep content c o pos).2 := by
  by_cases h1 : pos + (c : Int) < (content.length : Int)
  · have hw := chunkWindow_length_lb content c o pos hpos h1
    have hwn : c ≤ (chunkWindow content c o pos).length := by exact_mod_cast hw
    have hadj := chunkAdjust_length_lb c hc _ hwn
    simp only [chunkStep, if_pos h1]
    split_ifs with h2 <;> constructor <;> omega
  · have hge : (content.length : Int) ≤ pos + c := by omega
    have hw := chunkWindow_length_tail content c o pos hpos hlt hge
    simp only [chunkStep, if_neg h1]
    split_ifs with h2 <;> constructor <;> omega

/-- Fueled totality of the loop: from a nonnegative position, fuel
`n + 1` suffices whenever `n` steps of minimal progress cover the rest of
the content. -/
theorem chunkLoop_isSome (content : List Char) (c o : Nat) (hc : 1 ≤ c)
    (ho : 2 * o ≤ c) :
    ∀ (fuel : Nat) (pos : Int), 0 ≤ pos →
      (content.length : Int) ≤ pos + ((c / 2 + 1 - o) * fuel : Nat) →
      (chunkLoop content c o (fuel + 1) pos).isSome := by
  intro fuel
  induction fuel with
  | zero =>
    intro pos hpos hbound
    have hstop : ¬ pos < (content.length : Int) := by
      simp only [Nat.mul_zero] at hbound
      omega
    simp [chunkLoop, hstop]
  | succ fuel ih =>
    intro pos hpos hbound
    by_cases hlt : pos < (content.length : Int)
    · have hprog := chunkStep_progress content c o pos hc ho hpos hlt
      have hpos' : 0 ≤ (chunkStep content c o pos).2 :=
        le_of_lt (lt_of_le_of_lt hpos hprog.2)
      have hbound' : (content.length : Int) ≤
          (chunkStep content c o pos).2 + ((c / 2 + 1 - o) * fuel : Nat) := by
        rcases hprog.1 with h | h
        · have hexp : ((c / 2 + 1 - o) * (fuel + 1) : Nat) =
              ((c / 2 + 1 - o) * fuel : Nat) + (c / 2 + 1 - o : Nat) := by
            ring
          rw [hexp] at hbound
          push_cast at hbound ⊢
          linarith
        · have : (0 : Int) ≤ ((c / 2 + 1 - o) * fuel : Nat) := by positivity
          linarith
      have hnext := ih (chunkStep content c o pos).2 hpos' hbound'
      simpa [chunkLoop, hlt] using hnext
    · simp [chunkLoop, hlt]

/-! ## C1: chunker progress and termination -/

/-- C1 counterexample: with `chunkSize = 10`, `overlap = 8 < chunkSize`
and a paragraph break at index 6, the very first iteration moves
`position` from `0` to `-2` (negative progress), and the loop is still
running after 10 iterations even though the claimed bound is
`19 / (10 − 8) = 9.5`; in fact it never terminates. -/
theorem c1_counterexample :
    (chunkStep exContent 10 8 0).2 = -2 ∧
      chunkDocument exContent 10 8 10 = none := by
  constructor <;> decide

/-- C1 (amended): when `2·overlap ≤ chunkSize` (rather than just
`overlap < chunkSize`), every loop iteration from a nonnegative in-range
position strictly increases `position`, and the loop terminates within
`content.length / (⌊chunkSize/2⌋ + 1 − overlap) + 2` iterations. -/
theorem c1_chunk_termination (content : List Char) (chunkSize overlap : Nat)
    (hc : 1 ≤ chunkSize) (ho : 2 * overlap ≤ chunkSize) :
    (∀ pos : Int, 0 ≤ pos → pos < (content.length : Int) →
      pos < (chunkStep content chunkSize overlap pos).2) ∧
    (chunkDocument content chunkSize overlap
        (content.length / (chunkSize / 2 + 1 - overlap) + 2)).isSome := by
  constructor
  · intro pos hpos hlt
    exact (chunkStep_progress content chunkSize overlap pos hc ho hpos hlt).2
  · unfold chunkDocument
    split_ifs with hle
    · simp
    · have hδ : 0 < chunkSize / 2 + 1 - overlap := by omega
      have hdm := Nat.div_add_mod content.length (chunkSize / 2 + 1 - overlap)
      have hml := Nat.mod_lt content.length hδ
      have hnat : content.length ≤
          (chunkSize / 2 + 1 - overlap) *
            (content.length / (chunkSize / 2 + 1 - overlap) + 1) := by
        rw [Nat.mul_succ]
        linarith
      have hbound : (content.length : Int) ≤ 0 +
          ((chunkSize / 2 + 1 - overlap) *
            (content.length / (chunkSize / 2 + 1 - overlap) + 1) : Nat) := by
        push_cast
        push_cast at hnat
        linarith
      have := chunkLoop_isSome content chunkSize overlap hc ho
        (content.length / (chunkSize / 2 + 1 - overlap) + 1) 0 le_rfl hbound
      simpa using this

/-- C1 witness: the amended theorem applied at `chunkSize = 10`,
`overlap = 4` on the 19-character example content. -/
theorem c1_witness :
    (0 : Int) < (chunkStep exContent 10 4 0).2 ∧
      (chunkDocument exContent 10 4
        (exContent.length / (10 / 2 + 1 - 4) + 2)).isSome :=
  ⟨(c1_chunk_termination exContent 10 4 (by decide) (by decide)).1 0
      (by decide) (by decide),
    (c1_chunk_termination exContent 10 4 (by decide) (by decide)).2⟩

/-! ## C5: single-chunk fast path -/

/-- C5 counterexample: the claim says short content yields one chunk
equal to the whitespace-trimmed input, but `chunkDocument` returns the
content unchanged (line 399 of the source, "return as is"): on
`"␣a␣"` with `chunkSize = 10`, the chunk keeps its surrounding blanks. -/
theorem c5_counterexample :
    chunkDocument [' ', 'a', ' '] 10 0 0 = some [[' ', 'a', ' ']] ∧
      jsTrim [' ', 'a', ' '] ≠ [' ', 'a', ' '] := by
  constructor
  · decide
  · decide

/-- C5 (amended): for every content with `content.length ≤ chunkSize`,
`chunkDocument` returns exactly one chunk, and that chunk is the input
unchanged (no trimming is applied on this path). -/
theorem c5_single_chunk (content : List Char) (chunkSize overlap fuel : Nat)
    (h : content.length ≤ chunkSize) :
    chunkDocument content chunkSize overlap fuel = some [content] := by
  simp [chunkDocument, h]

/-- C5 witness: the amended theorem applied at a concrete short input. -/
theorem c5_witness :
    [' ', 'a', ' '].length ≤ 10 ∧
      chunkDocument [' ', 'a', ' '] 10 2 7 = some [[' ', 'a', ' ']] :=
  ⟨by decide, c5_single_chunk [' ', 'a', ' '] 10 2 7 (by decide)⟩

/-! ## C10: empty operation list -/

/-- C10: `vectorAlgebra([])` returns the null accumulator (`result!`
with `result === null`), not a vector and not an error, despite the
declared `Float32Array` return type. -/
theorem c10_empty_ops (db : List (String × List ℝ)) :
    vectorAlgebra db [] = Except.ok none := rfl

/-! ## C2: initialize and corrupt on-disk data -/

/-- C2 counterexample: the claim says `initialize` fails with
`IndexPersistenceError` exactly when the on-disk data is corrupt, but the
code catches the failed load (lines 37-40) and creates a fresh index:
on a corrupt disk it succeeds. -/
theorem c2_counterexample :
    vsInitialize (vsNew 1536) .corrupt 100 =
      Except.ok { initialized := true, dimension := 1536, maxElements := 100,
                  numElements := 0, elems := [] } := rfl

/-- C2 (amended): `initialize` never fails on the load path: an absent
file and corrupt on-disk data both lead to a fresh index bounded to
`capacity`, and readable data is loaded with its element count. -/
theorem c2_load_recovery (st : VSState) (disk : DiskState) (capacity : Nat) :
    ∃ st', vsInitialize st disk capacity = Except.ok st' ∧
      st'.initialized = true ∧ st'.maxElements = capacity ∧
      ((disk = .absent ∨ disk = .corrupt) → st'.elems = []) ∧
      (∀ el, disk = .stored el → st'.elems = el ∧
        st'.numElements = el.length) := by
  cases disk <;> refine ⟨_, rfl, rfl, rfl, ?_, ?_⟩ <;> simp

/-- C2 witness: the amended theorem applied to a corrupt disk. -/
theorem c2_witness :
    ∃ st', vsInitialize (vsNew 1536) .corrupt 100 = Except.ok st' ∧
      st'.initialized = true ∧ st'.maxElements = 100 ∧ st'.elems = [] := by
  obtain ⟨st', h1, h2, h3, h4, _⟩ := c2_load_recovery (vsNew 1536) .corrupt 100
  exact ⟨st', h1, h2, h3, h4 (Or.inr rfl)⟩

/-! ## C9: a weight of zero defaults to 1.0 -/

/-- `vaLoop` only looks at the handle, kind, and effective weight of each
operation. -/
theorem vaLoop_congr (db : List (String × List ℝ)) :
    ∀ (ops₁ ops₂ : List VOp) (acc : Option (List ℝ)),
      ops₁.map vopKey = ops₂.map vopKey →
      vaLoop db acc ops₁ = vaLoop db acc ops₂ := by
  intro ops₁
  induction ops₁ with
  | nil =>
    intro ops₂ acc h
    cases ops₂ with
    | nil => rfl
    | cons _ _ => simp at h
  | cons op rest ih =>
    intro ops₂ acc h
    cases ops₂ with
    | nil => simp at h
    | cons op₂ rest₂ =>
      simp only [List.map_cons, List.cons.injEq] at h
      obtain ⟨hk, hrest⟩ := h
      have hh : op.handle = op₂.handle := congrArg Prod.fst hk
      have ht : op.type = op₂.type := congrArg (fun p => p.2.1) hk
      have hw : effWeight op.weight = effWeight op₂.weight :=
        congrArg (fun p => p.2.2) hk
      rcases hl : lookupHandle db op₂.handle with _ | v
      · simp only [vaLoop, hh, hl]
      · cases acc with
        | none =>
          simp only [vaLoop, hh, hl]
          exact ih rest₂ (some v) hrest
        | some r =>
          cases hot : op₂.type with
          | add =>
            rcases ha : vAdd r v (effWeight op₂.weight) with _ | r'
            · simp only [vaLoop, hh, ht, hw, hl, hot, ha]
            · simp only [vaLoop, hh, ht, hw, hl, hot, ha]
              exact ih rest₂ (some r') hrest
          | subtract =>
            rcases ha : vSub r v (effWeight op₂.weight) with _ | r'
            · simp only [vaLoop, hh, ht, hw, hl, hot, ha]
            · simp only [vaLoop, hh, ht, hw, hl, hot, ha]
              exact ih rest₂ (some r') hrest
          | multiply =>
            simp only [vaLoop, hh, ht, hw, hl, hot]
            exact ih rest₂ (some r) hrest

/-- C9: `op.weight || 1.0` treats an explicit weight of `0` as `1.0`, so
replacing a zero weight by `1.0` in any non-first operation leaves the
result of `vectorAlgebra` unchanged. -/
theorem c9_zero_weight (db : List (String × List ℝ)) (pre : List VOp)
    (op : VOp) (post : List VOp) (_hpre : pre ≠ [])
    (hw : op.weight = some 0) :
    vectorAlgebra db (pre ++ { op with weight := some 1 } :: post) =
      vectorAlgebra db (pre ++ op :: post) := by
  apply vaLoop_congr
  simp [vopKey, effWeight, hw]

/-- C9 witness: the theorem applied to a concrete operation list over
`exDb`. -/
theorem c9_witness :
    [VOp.mk .add "h1" none] ≠ [] ∧
      (VOp.mk .subtract "h2" (some 0)).weight = some 0 ∧
      vectorAlgebra exDb
          [VOp.mk .add "h1" none, VOp.mk .subtract "h2" (some 1)] =
        vectorAlgebra exDb
          [VOp.mk .add "h1" none, VOp.mk .subtract "h2" (some 0)] :=
  ⟨by simp, rfl,
    c9_zero_weight exDb [VOp.mk .add "h1" none] (VOp.mk .subtract "h2" (some 0))
      [] (by simp) rfl⟩

/-! ## Merge-map lemmas shared by the fusion claims -/

theorem mapGet_mapSet_self (k : Nat) (v : ℚ) :
    ∀ m, mapGet (mapSet m k v) k = some v := by
  intro m
  induction m with
  | nil => simp [mapSet, mapGet]
  | cons p rest ih =>
    obtain ⟨k', v'⟩ := p
    by_cases h : k' = k <;> simp [mapSet, mapGet, h, ih]

theorem mapGet_mapSet_ne (k k' : Nat) (v : ℚ) (h : k' ≠ k) :
    ∀ m, mapGet (mapSet m k' v) k = mapGet m k := by
  intro m
  induction m with
  | nil => simp [mapSet, mapGet, h]
  | cons p rest ih =>
    obtain ⟨k'', v''⟩ := p
    by_cases h2 : k'' = k' <;> simp [mapSet, mapGet, h, h2, ih]

theorem lexStep_get_ne (m : List (Nat × ℚ)) (l id : Nat) (h : l ≠ id) :
    mapGet (lexStep m l) id = mapGet m id := by
  unfold lexStep
  split
  · exact mapGet_mapSet_ne _ _ _ h m
  · rfl

theorem semStep_get_ne (m : List (Nat × ℚ)) (hit : Nat × ℚ) (id : Nat)
    (h : hit.1 ≠ id) : mapGet (semStep m hit) id = mapGet m id := by
  unfold semStep
  split
  · rfl
  · cases mapGet m hit.1 <;> exact mapGet_mapSet_ne _ _ _ h m

theorem foldl_lexStep_not_mem (id : Nat) :
    ∀ (lex : List Nat) (m : List (Nat × ℚ)), id ∉ lex →
      mapGet (lex.foldl lexStep m) id = mapGet m id := by
  intro lex
  induction lex with
  | nil => simp
  | cons l rest ih =>
    intro m h
    rw [List.mem_cons, not_or] at h
    rw [List.foldl_cons, ih _ h.2, lexStep_get_ne _ _ _ (fun e => h.1 e.symm)]

theorem foldl_lexStep_mem (id : Nat) (h0 : id ≠ 0) :
    ∀ (lex : List Nat) (m : List (Nat × ℚ)), id ∈ lex →
      mapGet (lex.foldl lexStep m) id = some (1/2) := by
  intro lex
  induction lex with
  | nil => simp
  | cons l rest ih =>
    intro m hmem
    by_cases hr : id ∈ rest
    · rw [List.foldl_cons]
      exact ih _ hr
    · have hl : l = id := by
        rcases List.mem_cons.mp hmem with h | h
        · exact h.symm
        · exact absurd h hr
      rw [List.foldl_cons, foldl_lexStep_not_mem id rest _ hr, hl]
      unfold lexStep
      rw [if_pos h0]
      exact mapGet_mapSet_self _ _ m

theorem foldl_semStep_not_mem (id : Nat) :
    ∀ (sem : List (Nat × ℚ)) (m : List (Nat × ℚ)),
      id ∉ sem.map Prod.fst →
      mapGet (sem.foldl semStep m) id = mapGet m id := by
  intro sem
  induction sem with
  | nil => simp
  | cons hit rest ih =>
    intro m h
    rw [List.map_cons, List.mem_cons, not_or] at h
    rw [List.foldl_cons, ih _ h.2, semStep_get_ne _ _ _ (fun e => h.1 e.symm)]

theorem foldl_semStep_mem (id : Nat) (s : ℚ) (h0 : id ≠ 0) :
    ∀ (sem : List (Nat × ℚ)) (m : List (Nat × ℚ)),
      (sem.map Prod.fst).Nodup → (id, s) ∈ sem →
      mapGet (sem.foldl semStep m) id =
        some ((mapGet m id).getD 0 + s * (1/2)) := by
  intro sem
  induction sem with
  | nil => simp
  | cons hit rest ih =>
    intro m hnd hmem
    rw [List.map_cons, List.nodup_cons] at hnd
    rcases List.mem_cons.mp hmem with he | hr
    · have hid : hit = (id, s) := he.symm
      subst hid
      have hnotin : id ∉ rest.map Prod.fst := hnd.1
      rw [List.foldl_cons, foldl_semStep_not_mem id rest _ hnotin]
      unfold semStep
      rw [if_neg h0]
      cases hm : mapGet m id with
      | none =>
        rw [mapGet_mapSet_self]
        simp
      | some v =>
        rw [mapGet_mapSet_self]
        simp
    · have hfst : id ∈ rest.map Prod.fst :=
        List.mem_map.mpr ⟨(id, s), hr, rfl⟩
      have hne : hit.1 ≠ id := fun e => hnd.1 (e ▸ hfst)
      rw [List.foldl_cons, ih _ hnd.2 hr, semStep_get_ne _ _ _ hne]

/-! ## C3: fused scores by membership -/

/-- C3 counterexample: the claim quantifies over every pair of input
lists, but the merge is not the claimed function of set membership on
arbitrary lists: a semantic list repeating an id accumulates `0.5·s`
twice (score `13/10`, not `0.5 + 0.5·0.8 = 9/10`), and a document with
the falsy id `0` is skipped entirely rather than receiving `0.5`. -/
theorem c3_counterexample :
    mapGet (fuseMerged [1] [(1, 4/5), (1, 4/5)]) 1 = some (13/10) ∧
      (13 : ℚ)/10 ≠ 1/2 + (4/5) * (1/2) ∧
      mapGet (fuseMerged [0] []) 0 = none := by
  refine ⟨?_, by norm_num, by norm_num [fuseMerged, lexStep, mapGet]⟩
  norm_num [fuseMerged, lexStep, semStep, mapGet, mapSet]

/-- C3 (amended): for inputs whose semantic list mentions each id at most
once and for documents with nonzero (truthy) ids, the merged score is
exactly `0.5 + 0.5·s` for a document in both sets with semantic
similarity `s`, exactly `0.5` for a lexical-only document, and exactly
`0.5·s` for a semantic-only document. -/
theorem c3_scores (lex : List Nat) (sem : List (Nat × ℚ)) (id : Nat) (s : ℚ)
    (hnd : (sem.map Prod.fst).Nodup) (h0 : id ≠ 0) :
    (id ∈ lex → (id, s) ∈ sem →
      mapGet (fuseMerged lex sem) id = some (1/2 + s * (1/2))) ∧
    (id ∈ lex → id ∉ sem.map Prod.fst →
      mapGet (fuseMerged lex sem) id = some (1/2)) ∧
    ((id, s) ∈ sem → id ∉ lex →
      mapGet (fuseMerged lex sem) id = some (s * (1/2))) := by
  unfold fuseMerged
  refine ⟨fun hl hs => ?_, fun hl hs => ?_, fun hs hl => ?_⟩
  · rw [foldl_semStep_mem id s h0 sem _ hnd hs,
      foldl_lexStep_mem id h0 lex [] hl]
    simp
  · rw [foldl_semStep_not_mem id sem _ hs, foldl_lexStep_mem id h0 lex [] hl]
  · rw [foldl_semStep_mem id s h0 sem _ hnd hs,
      foldl_lexStep_not_mem id lex [] hl]
    simp [mapGet]

/-- C3 witness: the amended theorem applied to concrete lists covering
all three membership cases. -/
theorem c3_witness :
    mapGet (fuseMerged [1, 2] [(1, 4/5), (3, 3/5)]) 1 = some (1/2 + (4/5) * (1/2)) ∧
      mapGet (fuseMerged [1, 2] [(1, 4/5), (3, 3/5)]) 2 = some (1/2) ∧
      mapGet (fuseMerged [1, 2] [(1, 4/5), (3, 3/5)]) 3 = some ((3/5) * (1/2)) :=
  ⟨(c3_scores [1, 2] [(1, 4/5), (3, 3/5)] 1 (4/5) (by norm_num) (by norm_num)).1
      (by norm_num) (by norm_num),
   (c3_scores [1, 2] [(1, 4/5), (3, 3/5)] 2 (4/5) (by norm_num) (by norm_num)).2.1
      (by norm_num) (by norm_num),
   (c3_scores [1, 2] [(1, 4/5), (3, 3/5)] 3 (3/5) (by norm_num) (by norm_num)).2.2
      (by norm_num) (by norm_num)⟩

/-! ## C6: ordering, truncation, stability of the fused list -/

/-- C6 counterexample: the fused list is not strictly descending: two
lexical-only documents tie at score `0.5`. -/
theorem c6_counterexample :
    fuse [1, 2] [] 10 = [(1, 1/2), (2, 1/2)] ∧
      ¬ List.Chain' (fun a b : Nat × ℚ => b.2 < a.2) [(1, 1/2), (2, 1/2)] := by
  constructor
  · norm_num [fuse, fuseSorted, fuseMerged, lexStep, semStep, mapGet, mapSet,
      List.insertionSort, List.orderedInsert, scoreDesc]
  · simp

/-- C6 (amended): the fused list is sorted descending (not strictly) by
combined score and truncated to at most `limit` entries; the sort is
stable, so entries with tied scores keep the merge-map order, in which
lexical hits were folded in before semantic hits; the claim's scenario
`fuse(lexical=[A,B], semantic=[(A,0.8)], limit=10) = [(A,0.9),(B,0.5)]`
holds. -/
theorem c6_fuse :
    (∀ (lex : List Nat) (sem : List (Nat × ℚ)) (limit : Nat),
      List.Sorted scoreDesc (fuse lex sem limit) ∧
        (fuse lex sem limit).length ≤ limit) ∧
    (∀ (lex : List Nat) (sem : List (Nat × ℚ)) (x y : Nat × ℚ),
      [x, y].Sublist (fuseMerged lex sem) → y.2 ≤ x.2 →
      [x, y].Sublist (fuseSorted lex sem)) ∧
    fuse [1, 2] [(1, 4/5)] 10 = [(1, 9/10), (2, 1/2)] := by
  refine ⟨fun lex sem limit => ⟨?_, ?_⟩, fun lex sem x y hsub hle => ?_, ?_⟩
  · exact (List.sorted_insertionSort scoreDesc _).sublist
      (List.take_sublist _ _)
  · simp [fuse]
  · exact List.pair_sublist_insertionSort hle hsub
  · norm_num [fuse, fuseSorted, fuseMerged, lexStep, semStep, mapGet, mapSet,
      List.insertionSort, List.orderedInsert, scoreDesc]

/-- C6 witness: the theorem applied at concrete inputs, including a tied
pair kept in lexical processing order by the stable sort. -/
theorem c6_witness :
    List.Sorted scoreDesc (fuse [1, 2] [] 10) ∧
      [((1 : Nat), (1 : ℚ)/2), (2, 1/2)].Sublist (fuseSorted [1, 2] []) := by
  have hmerged : fuseMerged [1, 2] [] = [(1, 1/2), (2, 1/2)] := by
    norm_num [fuseMerged, lexStep, mapSet]
  refine ⟨(c6_fuse.1 [1, 2] [] 10).1, ?_⟩
  exact c6_fuse.2.1 [1, 2] [] (1, 1/2) (2, 1/2)
    (hmerged ▸ List.Sublist.refl _) le_rfl

/-! ## C7: normalize and the zero vector -/

/-- C7: `normalize` maps the zero vector of any dimension to itself (the
zero-magnitude guard at lines 160-162 avoids the division), and divides
componentwise by the Euclidean magnitude whenever that magnitude is
nonzero. -/
theorem c7_normalize :
    (∀ n : Nat, normalize (List.replicate n (0 : ℝ)) = List.replicate n 0) ∧
      (∀ v : List ℝ, magnitude v ≠ 0 →
        normalize v = v.map (fun x => x / magnitude v)) := by
  constructor
  · intro n
    have hs : sumSq (List.replicate n (0 : ℝ)) = 0 := by
      simp [sumSq]
    have hmag : magnitude (List.replicate n (0 : ℝ)) = 0 := by
      simp [magnitude, hs]
    simp [normalize, hmag]
  · intro v hv
    simp [normalize, hv]

/-- C7 witness: the theorem applied at dimension 2 and at the concrete
nonzero vector `[1]`. -/
theorem c7_witness :
    normalize (List.replicate 2 (0 : ℝ)) = List.replicate 2 0 ∧
      (magnitude [(1 : ℝ)] ≠ 0 ∧
        normalize [(1 : ℝ)] = [(1 : ℝ)].map (fun x => x / magnitude [(1 : ℝ)])) := by
  have hm : magnitude [(1 : ℝ)] = 1 := by
    simp [magnitude, sumSq]
  exact ⟨c7_normalize.1 2, by rw [hm]; norm_num,
    c7_normalize.2 [(1 : ℝ)] (by rw [hm]; norm_num)⟩

/-! ## Vector-algebra lemmas shared by C4 -/

theorem normalize_length (v : List ℝ) : (normalize v).length = v.length := by
  unfold normalize
  split <;> simp

theorem vAdd_spec (v₁ v₂ : List ℝ) (w : ℚ) (h : v₁.length = v₂.length) :
    ∃ r, vAdd v₁ v₂ w = some r ∧ r.length = v₁.length := by
  refine ⟨_, by rw [vAdd, if_pos h], ?_⟩
  rw [normalize_length]
  simp [h]

theorem vSub_spec (v₁ v₂ : List ℝ) (w : ℚ) (h : v₁.length = v₂.length) :
    ∃ r, vSub v₁ v₂ w = some r ∧ r.length = v₁.length := by
  refine ⟨_, by rw [vSub, if_pos h], ?_⟩
  rw [normalize_length]
  simp [h]

theorem lookupHandle_length {db : List (String × List ℝ)} {d : Nat}
    {h : String} {v : List ℝ} (hdb : ∀ p ∈ db, p.2.length = d)
    (hl : lookupHandle db h = some v) : v.length = d := by
  unfold lookupHandle at hl
  rcases Option.map_eq_some'.mp hl with ⟨p, hfind, hv⟩
  exact hv ▸ hdb p (List.mem_of_find?_eq_some hfind)

/-- If some operation's handle is missing from the table and all table
vectors share one dimension, the loop reaches the first missing handle
and fails there. -/
theorem vaLoop_missing (db : List (String × List ℝ)) (d : Nat)
    (hdb : ∀ p ∈ db, p.2.length = d) :
    ∀ (ops : List VOp) (acc : Option (List ℝ)),
      (∀ v, acc = some v → v.length = d) →
      (∃ op ∈ ops, lookupHandle db op.handle = none) →
      ∃ h, vaLoop db acc ops = Except.error (.handleNotFound h) ∧
        lookupHandle db h = none := by
  intro ops
  induction ops with
  | nil =>
    intro acc _ hex
    simp at hex
  | cons op rest ih =>
    intro acc hacc hex
    rcases hl : lookupHandle db op.handle with _ | v
    · exact ⟨op.handle, by simp [vaLoop, hl], hl⟩
    · have hex' : ∃ op' ∈ rest, lookupHandle db op'.handle = none := by
        rcases hex with ⟨op', hmem, hnone⟩
        rcases List.mem_cons.mp hmem with he | hr
        · rw [he] at hnone
          rw [hnone] at hl
          exact absurd hl (by simp)
        · exact ⟨op', hr, hnone⟩
      have hvlen : v.length = d := lookupHandle_length hdb hl
      cases acc with
      | none =>
        simp only [vaLoop, hl]
        exact ih (some v)
          (fun u hu => by rw [Option.some.injEq] at hu; rw [← hu]; exact hvlen)
          hex'
      | some r =>
        have hrlen : r.length = d := hacc r rfl
        cases hot : op.type with
        | add =>
          obtain ⟨r', hr', hlen'⟩ :=
            vAdd_spec r v (effWeight op.weight) (by rw [hrlen, hvlen])
          simp only [vaLoop, hl, hot, hr']
          exact ih (some r')
            (fun u hu => by
              rw [Option.some.injEq] at hu
              rw [← hu, hlen', hrlen])
            hex'
        | subtract =>
          obtain ⟨r', hr', hlen'⟩ :=
            vSub_spec r v (effWeight op.weight) (by rw [hrlen, hvlen])
          simp only [vaLoop, hl, hot, hr']
          exact ih (some r')
            (fun u hu => by
              rw [Option.some.injEq] at hu
              rw [← hu, hlen', hrlen])
            hex'
        | multiply =>
          simp only [vaLoop, hl, hot]
          exact ih (some r)
            (fun u hu => by rw [Option.some.injEq] at hu; rw [← hu]; exact hrlen)
            hex'

theorem normalize_eq_map {v : List ℝ} (h : magnitude v ≠ 0) :
    normalize v = v.map (fun x => x / magnitude v) := by
  unfold normalize
  rw [if_neg h]

theorem sqrt54_bounds :
    (1.118 : ℝ) ≤ Real.sqrt (5/4) ∧ Real.sqrt (5/4) ≤ 1.1181 := by
  have h0 : (0 : ℝ) ≤ 5/4 := by norm_num
  have hs := Real.sq_sqrt h0
  have hnn := Real.sqrt_nonneg (5/4 : ℝ)
  constructor <;>
    nlinarith [hs, hnn, sq_nonneg (Real.sqrt (5/4) - 1.118),
      sq_nonneg (Real.sqrt (5/4) - 1.1181)]

theorem normalize_exVec :
    normalize [(1 : ℝ), -(1/2), 0] =
      [1 / Real.sqrt (5/4), -(1/2) / Real.sqrt (5/4), 0] := by
  have hsum : sumSq [(1 : ℝ), -(1/2), 0] = 5/4 := by norm_num [sumSq]
  have hmag : magnitude [(1 : ℝ), -(1/2), 0] = Real.sqrt (5/4) := by
    rw [magnitude, hsum]
  have hpos : (0 : ℝ) < Real.sqrt (5/4) := by positivity
  have hne : magnitude [(1 : ℝ), -(1/2), 0] ≠ 0 := by
    rw [hmag]
    exact hpos.ne'
  rw [normalize_eq_map hne, hmag, List.map_cons, List.map_cons, List.map_cons,
    List.map_nil, zero_div]

theorem vectorAlgebra_exOps :
    vectorAlgebra exDb exOps = Except.ok (some (normalize [1, -(1/2), 0])) := by
  have h1 : lookupHandle exDb "h1" = some [1, 0, 0] := by
    simp [lookupHandle, exDb]
  have h2 : lookupHandle exDb "h2" = some [0, 1, 0] := by
    simp [lookupHandle, exDb]
  have hw : effWeight (some ((1 : ℚ)/2)) = 1/2 := by norm_num [effWeight]
  simp only [vectorAlgebra, exOps, vaLoop, h1, h2, hw, vSub]
  norm_num

/-! ## C4: the vector-algebra sequencing claim -/

/-- C4 counterexample: the worked example does yield
`normalize([1,-0.5,0])`, but its first component is `2/√5 ≈ 0.89443`,
which differs from `0.894` by more than the claimed `1e-4`. -/
theorem c4_counterexample :
    vectorAlgebra exDb exOps = Except.ok (some (normalize [1, -(1/2), 0])) ∧
      (normalize [(1 : ℝ), -(1/2), 0]).head? = some (1 / Real.sqrt (5/4)) ∧
      ¬ |1 / Real.sqrt (5/4) - 0.894| ≤ 1/10000 := by
  refine ⟨vectorAlgebra_exOps, by rw [normalize_exVec]; rfl, ?_⟩
  obtain ⟨h1, h2⟩ := sqrt54_bounds
  have hpos : (0 : ℝ) < Real.sqrt (5/4) := lt_of_lt_of_le (by norm_num) h1
  have hgt : (0.8941 : ℝ) < 1 / Real.sqrt (5/4) := by
    rw [lt_div_iff₀ hpos]
    nlinarith [h2]
  have habs : (1 : ℝ)/10000 < |1 / Real.sqrt (5/4) - 0.894| :=
    lt_of_lt_of_le (by linarith) (le_abs_self _)
  exact not_le.mpr habs

/-- C4 (amended): the first operation seeds the accumulator with its
resolved vector unchanged (kind and weight unused); a missing handle (in
a table of uniform dimension) makes `vectorAlgebra` fail with the
handle-not-found error naming a missing handle; the worked example yields
`normalize([1,-0.5,0])`, which is within `1e-3` (not `1e-4`) of
`[0.894,-0.447,0]`. -/
theorem c4_algebra :
    (∀ (db : List (String × List ℝ)) (op0 : VOp) (rest : List VOp)
        (v0 : List ℝ), lookupHandle db op0.handle = some v0 →
        vectorAlgebra db (op0 :: rest) = vaLoop db (some v0) rest) ∧
    (∀ (db : List (String × List ℝ)) (ops : List VOp) (d : Nat),
        (∀ p ∈ db, p.2.length = d) →
        (∃ op ∈ ops, lookupHandle db op.handle = none) →
        ∃ h, vectorAlgebra db ops = Except.error (.handleNotFound h) ∧
          lookupHandle db h = none) ∧
    (vectorAlgebra exDb exOps = Except.ok (some (normalize [1, -(1/2), 0])) ∧
      ∃ a b : ℝ, normalize [(1 : ℝ), -(1/2), 0] = [a, b, 0] ∧
        |a - 0.894| ≤ 1/1000 ∧ |b + 0.447| ≤ 1/1000) := by
  refine ⟨fun db op0 rest v0 hl => by simp [vectorAlgebra, vaLoop, hl],
    fun db ops d hdb hex =>
      vaLoop_missing db d hdb ops none (fun v hv => by simp at hv) hex,
    vectorAlgebra_exOps, 1 / Real.sqrt (5/4), -(1/2) / Real.sqrt (5/4),
    normalize_exVec, ?_, ?_⟩
  · obtain ⟨h1, h2⟩ := sqrt54_bounds
    have hpos : (0 : ℝ) < Real.sqrt (5/4) := lt_of_lt_of_le (by norm_num) h1
    have hub : (1 : ℝ) / Real.sqrt (5/4) ≤ 0.895 := by
      rw [div_le_iff₀ hpos]
      nlinarith [h1]
    have hlb : (0.893 : ℝ) ≤ 1 / Real.sqrt (5/4) := by
      rw [le_div_iff₀ hpos]
      nlinarith [h2]
    rw [abs_le]
    constructor <;> linarith
  · obtain ⟨h1, h2⟩ := sqrt54_bounds
    have hpos : (0 : ℝ) < Real.sqrt (5/4) := lt_of_lt_of_le (by norm_num) h1
    have hrw : -(1/2) / Real.sqrt (5/4) = -((1/2) / Real.sqrt (5/4)) := by
      ring
    have hub : (1/2 : ℝ) / Real.sqrt (5/4) ≤ 0.448 := by
      rw [div_le_iff₀ hpos]
      nlinarith [h1]
    have hlb : (0.446 : ℝ) ≤ (1/2) / Real.sqrt (5/4) := by
      rw [le_div_iff₀ hpos]
      nlinarith [h2]
    rw [hrw, abs_le]
    constructor <;> linarith

/-- C4 witness: the amended theorem applied at concrete inputs: the
seeding equation over `exDb`, and the failure on a missing handle. -/
theorem c4_witness :
    vectorAlgebra exDb (⟨.multiply, "h1", some 7⟩ :: exOps) =
        vaLoop exDb (some [1, 0, 0]) exOps ∧
      ∃ h, vectorAlgebra exDb [⟨.add, "nosuch", none⟩] =
          Except.error (.handleNotFound h) ∧
        lookupHandle exDb h = none := by
  constructor
  · exact c4_algebra.1 exDb ⟨.multiply, "h1", some 7⟩ exOps [1, 0, 0]
      (by simp [lookupHandle, exDb])
  · exact c4_algebra.2.1 exDb [⟨.add, "nosuch", none⟩] 3
      (by norm_num [exDb])
      ⟨⟨.add, "nosuch", none⟩, by simp, by simp [lookupHandle, exDb]⟩

/-! ## C8: search on an initialized store -/

/-- C8: on an initialized store, a dimension-matching query over an empty
index returns `[]` (not an error); any successful search returns at most
`min k numElements` hits sorted ascending by distance; a query of the
wrong length fails with the dimension-mismatch error. -/
theorem c8_search (st : VSState) (dist : List ℚ → List ℚ → ℚ) (q : List ℚ)
    (k : Nat) (hinit : st.initialized = true) :
    (q.length = st.dimension →
      (st.numElements = 0 → vsSearch st dist q k = Except.ok []) ∧
      (∀ hits, vsSearch st dist q k = Except.ok hits →
        hits.length ≤ min k st.numElements ∧
        List.Sorted (fun a b : Nat × ℚ => a.2 ≤ b.2) hits)) ∧
    (q.length ≠ st.dimension →
      vsSearch st dist q k = Except.error .dimensionMismatch) := by
  refine ⟨fun hdim => ⟨fun hz => by simp [vsSearch, hinit, hdim, hz],
    fun hits hok => ?_⟩, fun hdim => by simp [vsSearch, hinit, hdim]⟩
  by_cases hz : st.numElements = 0
  · simp [vsSearch, hinit, hdim, hz] at hok
    subst hok
    simp
  · simp [vsSearch, hinit, hdim, hz] at hok
    subst hok
    refine ⟨?_, ?_⟩
    · simp [searchKnn]
    · unfold searchKnn
      exact List.Pairwise.map _ (fun a b h => h)
        ((List.sorted_insertionSort (distAsc dist q) _).sublist
          (List.take_sublist _ _))

/-- C8 witness: the theorem applied to a concrete store, query, and
distance function, with the search result evaluated explicitly. -/
theorem c8_witness :
    ([((5 : Nat), (0 : ℚ)), (7, 0)].length ≤ min 5 exStore.numElements ∧
      List.Sorted (fun a b : Nat × ℚ => a.2 ≤ b.2) [((5 : Nat), (0 : ℚ)), (7, 0)]) ∧
    vsSearch exStore exDist [9, 9, 9] 5 = Except.error .dimensionMismatch := by
  have heval : vsSearch exStore exDist [1, 0] 5 = Except.ok [(5, 0), (7, 0)] := by
    norm_num [vsSearch, exStore, exDist, searchKnn, List.insertionSort,
      List.orderedInsert, distAsc]
  exact ⟨((c8_search exStore exDist [1, 0] 5 rfl).1 (by norm_num [exStore])).2
      [(5, 0), (7, 0)] heval,
    (c8_search exStore exDist [9, 9, 9] 5 rfl).2 (by norm_num [exStore])⟩

end KnowledgeDb
